import Mathlib

set_option allowUnsafeReducibility true
attribute [semireducible] Rat.add Rat.mul Rat.sub Rat.inv

/-!
# Verification of the student-housing energy aggregation pipeline

Shallow embedding of the aggregation-and-anomaly-scoring core of the
repository (`src/data.py` : `aggregate_data`, `src/utils.py` : `mad_robust`,
`robust_z_scores`, and the top-3 selection in `app.py`).

Conventions of the embedding:
* pandas/numpy floating-point cells are modelled as `Option ℚ`
  (`none` = NaN / missing, `some q` = a finite numeric value);
* a DataFrame is a list of rows (record structures), in row order;
* pandas `groupby(..., as_index=False).agg(...)` sorts the output by the
  ascending group key and computes, per group, `sum` (skipping nulls,
  `0` for an all-null group) and `first` (first non-null value);
* `merge(..., how="left")` keeps left order and emits one row per
  matching right row (a null-filled row when there is no match).
-/

/-- A calendar date `(year, month, day)` as used for the `date` column. -/
structure CalDate where
  y : Nat
  m : Nat
  d : Nat
deriving DecidableEq, Repr, Inhabited

/-- A row of the energy-readings table `edf` handed to `aggregate_data`:
`date`, `building_id`, `kwh`, `hdd_17c`, `total_HE` (the capacity /
occupancy column). Numeric cells are nullable. -/
structure Reading where
  date : CalDate
  building_id : String
  kwh : Option ℚ
  hdd_17c : Option ℚ
  total_HE : Option ℚ
deriving DecidableEq, Repr, Inhabited

/-- A row of the buildings table `bdf` (the columns `aggregate_data`
uses: `building_id`, `area_m2`, `name`, `lat`, `lon`). -/
structure Building where
  building_id : String
  area_m2 : Option ℚ
  name : Option String
  lat : Option ℚ
  lon : Option ℚ
deriving DecidableEq, Repr, Inhabited

/-- A row of the table returned by `aggregate_data`. -/
structure OutRow where
  date : CalDate
  building_id : String
  kwh : Option ℚ
  hdd_17c : Option ℚ
  total_HE : Option ℚ
  area_m2 : Option ℚ
  name : Option String
  lat : Option ℚ
  lon : Option ℚ
  expected_kwh : Option ℚ
  residual : Option ℚ
  kwh_per_m2 : Option ℚ
  kwh_per_student : Option ℚ
  z_score : Option ℚ
deriving DecidableEq, Repr, Inhabited

/-! ## Nullable arithmetic (pandas float semantics over `Option ℚ`) -/

/-- Binary arithmetic on nullable cells: NaN propagates. -/
def omap2 (f : ℚ → ℚ → ℚ) : Option ℚ → Option ℚ → Option ℚ
  | some a, some b => some (f a b)
  | _, _ => none

/-- pandas `sum` over a column: nulls are skipped, an empty / all-null
column sums to `0`. -/
def sumO (l : List (Option ℚ)) : ℚ :=
  (l.filterMap id).sum

/-- pandas groupby `first`: the first non-null value, null if none. -/
def firstO (l : List (Option ℚ)) : Option ℚ :=
  (l.filterMap id).head?

/-- Model of `x / y.replace(0, nan)` of `data.py` lines 263-264: null when the
denominator is null or `0`, the exact quotient otherwise. -/
def safeDiv (a b : Option ℚ) : Option ℚ :=
  match a, b with
  | some x, some y => if y = 0 then none else some (x / y)
  | _, _ => none

/-! ## Robust statistics (`src/utils.py`) -/

/-- Model of `np.median` of a list of (non-null) values: sort ascending, take the
middle element for odd length, the mean of the two middle elements for
even length; `0` by convention for the (unused) empty case. -/
def medianQ (l : List ℚ) : ℚ :=
  if l.length = 0 then 0
  else if l.length % 2 = 1 then (l.insertionSort (· ≤ ·)).getD (l.length / 2) 0
  else ((l.insertionSort (· ≤ ·)).getD (l.length / 2 - 1) 0 +
        (l.insertionSort (· ≤ ·)).getD (l.length / 2) 0) / 2

/-- Model of `mad_robust` of `src/utils.py`: `1.4826` times the median absolute
deviation of the non-null entries, `0.0` when there are none. -/
def mad_robust (xs : List (Option ℚ)) : ℚ :=
  if xs.filterMap id = [] then 0
  else (14826 / 10000 : ℚ) *
    medianQ ((xs.filterMap id).map fun a => |a - medianQ (xs.filterMap id)|)

/-- Model of `np.nanmedian`: the median of the non-null entries. -/
def nanmedian (xs : List (Option ℚ)) : ℚ :=
  medianQ (xs.filterMap id)

/-- Model of `robust_z_scores` of `src/utils.py`: empty input gives an empty
output; when the MAD-based scale is degenerate (`0`, or undefined because
there is no non-null entry) the result is `np.zeros_like(arr)` — zeros at
EVERY index, the null ones included; otherwise each entry is mapped to
`(x - nanmedian) / scale`, nulls staying null. -/
def robust_z_scores (xs : List (Option ℚ)) : List (Option ℚ) :=
  if xs = [] then []
  else if mad_robust xs = 0 then xs.map fun _ => some 0
  else xs.map (Option.map fun v => (v - nanmedian xs) / mad_robust xs)

/-! ## Bucketing and grouping (`aggregate_data`, `src/data.py` 229-267) -/

/-- Truncate a date to the first day of its month
(`.values.astype("datetime64[M]")`). -/
def monthFloor (d : CalDate) : CalDate := ⟨d.y, d.m, 1⟩

/-- Truncate a date to January 1 of its year (`dt.year` followed by
`to_datetime(year + "-01-01")`). -/
def yearFloor (d : CalDate) : CalDate := ⟨d.y, 1, 1⟩

/-- The bucket-start a reading date is mapped to at a given granularity:
month start for `"Month"`, January 1 for `"Year"`, the date unchanged
otherwise (the `else` branch of `aggregate_data` does not bucket). -/
def bucketOf (g : String) (d : CalDate) : CalDate :=
  if g = "Month" then monthFloor d
  else if g = "Year" then yearFloor d
  else d

/-- Lexicographic strict order on dates (how `datetime64` values compare). -/
def dateLt (a b : CalDate) : Prop :=
  a.y < b.y ∨ (a.y = b.y ∧ (a.m < b.m ∨ (a.m = b.m ∧ a.d < b.d)))

instance : DecidableRel dateLt := fun a b => by
  unfold dateLt; infer_instance

/-- Python/pandas string comparison: lexicographic by code point.
(Modelled on `String.data` because the comparison must be executable
inside the kernel.) -/
def pyStrLe (a b : String) : Prop :=
  a.data < b.data ∨ a = b

instance : DecidableRel pyStrLe := fun a b => by
  unfold pyStrLe; infer_instance

/-- Ascending order on pandas group keys `(bucket, building_id)`:
date first, then the building id string. -/
def keyLE (a b : CalDate × String) : Prop :=
  dateLt a.1 b.1 ∨ (a.1 = b.1 ∧ pyStrLe a.2 b.2)

instance : DecidableRel keyLE := fun a b => by
  unfold keyLE; infer_instance

instance : IsTrans (CalDate × String) keyLE where
  trans := by
    rintro ⟨da, sa⟩ ⟨db, sb⟩ ⟨dc, sc⟩ hab hbc
    have hstr : ∀ x y z : String, pyStrLe x y → pyStrLe y z → pyStrLe x z := by
      intro x y z hxy hyz
      rcases hxy with h1 | rfl
      · rcases hyz with h2 | rfl
        · exact Or.inl (lt_trans h1 h2)
        · exact Or.inl h1
      · exact hyz
    rcases hab with hab | ⟨hd1, hs1⟩ <;> rcases hbc with hbc | ⟨hd2, hs2⟩
    · left
      simp only at hab hbc ⊢
      unfold dateLt at hab hbc ⊢
      omega
    · simp only at hd2
      subst hd2
      exact Or.inl hab
    · simp only at hd1
      subst hd1
      exact Or.inl hbc
    · simp only at hd1 hd2
      subst hd1
      subst hd2
      exact Or.inr ⟨rfl, hstr _ _ _ hs1 hs2⟩

instance : IsTotal (CalDate × String) keyLE where
  total := by
    rintro ⟨da, sa⟩ ⟨db, sb⟩
    have hdate : dateLt da db ∨ da = db ∨ dateLt db da := by
      cases da with
      | mk y1 m1 d1 =>
        cases db with
        | mk y2 m2 d2 =>
          unfold dateLt
          simp only [CalDate.mk.injEq]
          omega
    rcases hdate with h | h | h
    · exact Or.inl (Or.inl h)
    · subst h
      rcases lt_trichotomy sa.data sb.data with hs | hs | hs
      · exact Or.inl (Or.inr ⟨rfl, Or.inl hs⟩)
      · have : sa = sb := by
          cases sa with
          | mk la =>
            cases sb with
            | mk lb =>
              simp only at hs
              rw [hs]
        exact Or.inl (Or.inr ⟨rfl, Or.inr this⟩)
      · exact Or.inr (Or.inr ⟨rfl, Or.inl hs⟩)
    · exact Or.inr (Or.inl h)

instance : IsAntisymm (CalDate × String) keyLE where
  antisymm := by
    rintro ⟨da, sa⟩ ⟨db, sb⟩ hab hba
    have hdlt : ∀ x y : CalDate, dateLt x y → dateLt y x → False := by
      intro x y hxy hyx
      cases x with
      | mk y1 m1 d1 =>
        cases y with
        | mk y2 m2 d2 =>
          unfold dateLt at hxy hyx
          simp only at hxy hyx
          omega
    have hirr : ∀ x : CalDate, ¬dateLt x x := by
      intro x hx
      exact hdlt x x hx hx
    rcases hab with hab | ⟨hd1, hs1⟩ <;> rcases hba with hba | ⟨hd2, hs2⟩
    · exact absurd hba (fun h => hdlt _ _ hab h)
    · simp only at hd2
      subst hd2
      exact absurd hab (hirr _)
    · simp only at hd1
      subst hd1
      exact absurd hba (hirr _)
    · simp only at hd1 hs1 hd2 hs2
      subst hd1
      have hstr : sa = sb := by
        rcases hs1 with h1 | h1
        · rcases hs2 with h2 | h2
          · exact absurd h1 (lt_asymm h2)
          · exact h2.symm
        · exact h1
      rw [hstr]

/-- The group key of a reading under a bucket function `f`. -/
def keyOf (f : CalDate → CalDate) (r : Reading) : CalDate × String :=
  (f r.date, r.building_id)

/-- The sorted, duplicate-free list of group keys of `edf` under `f`
(pandas `groupby` sorts the group keys ascending). -/
def groupKeys (f : CalDate → CalDate) (edf : List Reading) : List (CalDate × String) :=
  ((edf.map (keyOf f)).dedup).insertionSort keyLE

/-- The aggregated row of one group: `kwh` and `hdd_17c` are summed
(nulls skipped, `0` if all null — both therefore non-null), `total_HE`
is the first non-null value of the group. -/
def groupRow (f : CalDate → CalDate) (edf : List Reading) (k : CalDate × String) : Reading :=
  let grp := edf.filter fun r => keyOf f r = k
  { date := k.1
    building_id := k.2
    kwh := some (sumO (grp.map (·.kwh)))
    hdd_17c := some (sumO (grp.map (·.hdd_17c)))
    total_HE := firstO (grp.map (·.total_HE)) }

/-- Model of `groupby([bucket, building_id], as_index=False).agg(...)` under the
bucket function `f`. -/
def groupAgg (f : CalDate → CalDate) (edf : List Reading) : List Reading :=
  (groupKeys f edf).map (groupRow f edf)

/-- The pre-merge table of `aggregate_data`: grouped by month start for
`"Month"`, by year for `"Year"`, and the readings passed through
unchanged for every other granularity (the `else` branch). -/
def bucketed (g : String) (edf : List Reading) : List Reading :=
  if g = "Month" then groupAgg monthFloor edf
  else if g = "Year" then groupAgg yearFloor edf
  else edf

/-! ## Left merge and the derived columns -/

/-- Build one output row from a pre-merge row and the building attributes
attached by the merge, computing the derived columns of
`data.py` lines 261-264 (`z_score` is filled in later):
`expected_kwh = 30 * hdd_17c + 0.5 * total_HE`,
`residual = kwh - expected_kwh`, and the two guarded ratios. -/
def mkRow (r : Reading) (area : Option ℚ) (nm : Option String)
    (lat lon : Option ℚ) : OutRow :=
  let expected := omap2 (fun h t => 30 * h + (1 / 2 : ℚ) * t) r.hdd_17c r.total_HE
  { date := r.date
    building_id := r.building_id
    kwh := r.kwh
    hdd_17c := r.hdd_17c
    total_HE := r.total_HE
    area_m2 := area
    name := nm
    lat := lat
    lon := lon
    expected_kwh := expected
    residual := omap2 (fun k e => k - e) r.kwh expected
    kwh_per_m2 := safeDiv r.kwh area
    kwh_per_student := safeDiv r.kwh r.total_HE
    z_score := none }

/-- The rows a single left row produces in
`merge(bdf[...], on="building_id", how="left")`: one per matching
building, or a single null-attributed row when none matches. -/
def expandRow (bdf : List Building) (r : Reading) : List OutRow :=
  match bdf.filter (fun b => b.building_id = r.building_id) with
  | [] => [mkRow r none none none none]
  | ms => ms.map fun b => mkRow r b.area_m2 b.name b.lat b.lon

/-- The left merge of the pre-merge table with the buildings table. -/
def mergeLeft (bdf : List Building) (rows : List Reading) : List OutRow :=
  rows.flatMap (expandRow bdf)

/-- Model of the line `out["z_score"] = robust_z_scores(out["residual"])`: attach the
column of robust z-scores of the whole `residual` column. -/
def withZ (rows : List OutRow) : List OutRow :=
  List.zipWith (fun r z => { r with z_score := z })
    rows (robust_z_scores (rows.map (·.residual)))

/-- Model of `aggregate_data(edf, bdf, granularity)` of `src/data.py`. -/
def aggregate_data (edf : List Reading) (bdf : List Building) (g : String) :
    List OutRow :=
  withZ (mergeLeft bdf (bucketed g edf))

/-- An output row with its `z_score` column erased (used to state which
columns sharding by building can and cannot change). -/
def stripZ (w : OutRow) : OutRow := { w with z_score := none }

/-- The `(date, building_id)` key of a reading row. -/
def readKey (r : Reading) : CalDate × String := (r.date, r.building_id)

/-- The `(date, building_id)` key of an output row. -/
def rowKey (w : OutRow) : CalDate × String := (w.date, w.building_id)

/-- The number of occurrences of the key `k` in a list of keys. -/
def countKey (l : List (CalDate × String)) (k : CalDate × String) : Nat :=
  (l.filter fun x => x = k).length

/-! ## Top-N selection (`app.py` lines 205-228) -/

/-- Absolute value of the `z_score` of the row at index `i` (only used at indices whose
`z_score` is non-null). -/
def absZAt (rows : List OutRow) (i : Nat) : ℚ :=
  |((rows.getD i default).z_score.getD 0)|

/-- The indices of the rows with a non-null `z_score`
(`Series.nlargest` drops NaN entries). -/
def zIdx (rows : List OutRow) : List Nat :=
  (List.range rows.length).filter fun i => (rows.getD i default).z_score ≠ none

/-- The order `Series.abs().nlargest(...)` ranks indices by:
larger `|z_score|` first, ties kept in original position order
(`keep="first"`). -/
def zRank (rows : List OutRow) (i j : Nat) : Prop :=
  absZAt rows j < absZAt rows i ∨ (absZAt rows i = absZAt rows j ∧ i ≤ j)

instance : ∀ rows, DecidableRel (zRank rows) := fun rows i j => by
  unfold zRank; infer_instance

instance (rows : List OutRow) : IsTrans Nat (zRank rows) where
  trans := by
    intro i j k hij hjk
    unfold zRank at hij hjk ⊢
    rcases hij with hij | ⟨he1, hl1⟩ <;> rcases hjk with hjk | ⟨he2, hl2⟩
    · exact Or.inl (lt_trans hjk hij)
    · rw [← he2]
      exact Or.inl hij
    · rw [he1]
      exact Or.inl hjk
    · exact Or.inr ⟨he1.trans he2, le_trans hl1 hl2⟩

instance (rows : List OutRow) : IsTotal Nat (zRank rows) where
  total := by
    intro i j
    rcases lt_trichotomy (absZAt rows i) (absZAt rows j) with h | h | h
    · exact Or.inr (Or.inl h)
    · rcases Nat.le_total i j with hle | hle
      · exact Or.inl (Or.inr ⟨h, hle⟩)
      · exact Or.inr (Or.inr ⟨h.symm, hle⟩)
    · exact Or.inl (Or.inl h)

/-- The non-null indices ranked by descending `|z_score|`, position
breaking ties. -/
def zSorted (rows : List OutRow) : List Nat :=
  (zIdx rows).insertionSort (zRank rows)

/-- The top-`n` selection of `app.py`:
`gdf.loc[gdf["z_score"].abs().nlargest(n).index]`. -/
def topN (rows : List OutRow) (n : Nat) : List OutRow :=
  ((zSorted rows).take n).map fun i => rows.getD i default


/-! ## Helper lemmas: medians and robust scores -/

lemma length_robust_z_scores (xs : List (Option ℚ)) :
    (robust_z_scores xs).length = xs.length := by
  unfold robust_z_scores
  rcases eq_or_ne xs [] with rfl | hne
  · simp
  · by_cases h : mad_robust xs = 0 <;> simp [hne, h]

lemma robust_z_scores_degenerate (xs : List (Option ℚ)) (h : mad_robust xs = 0) :
    robust_z_scores xs = xs.map fun _ => some 0 := by
  unfold robust_z_scores
  rcases eq_or_ne xs [] with rfl | hne
  · simp
  · simp [hne, h]

lemma robust_z_scores_of_scale_ne (xs : List (Option ℚ)) (h : mad_robust xs ≠ 0) :
    robust_z_scores xs =
      xs.map (Option.map fun v => (v - nanmedian xs) / mad_robust xs) := by
  have hne : xs ≠ [] := by
    rintro rfl
    exact h (by simp [mad_robust])
  unfold robust_z_scores
  simp [hne, h]

lemma getD_mem_of_lt {l : List ℚ} {i : Nat} (h : i < l.length) : l.getD i 0 ∈ l := by
  rw [List.getD_eq_getElem?_getD, List.getElem?_eq_getElem h]
  exact List.getElem_mem h

lemma medianQ_nonneg {l : List ℚ} (h : ∀ x ∈ l, 0 ≤ x) : 0 ≤ medianQ l := by
  have hlen : (l.insertionSort (· ≤ ·)).length = l.length :=
    (List.perm_insertionSort _ l).length_eq
  have hmem : ∀ i, i < l.length → 0 ≤ (l.insertionSort (· ≤ ·)).getD i 0 := by
    intro i hi
    exact h _ ((List.perm_insertionSort _ l).mem_iff.mp
      (getD_mem_of_lt (by omega)))
  unfold medianQ
  split_ifs with h0 h1
  · exact le_refl 0
  · exact hmem _ (Nat.div_lt_self (Nat.pos_of_ne_zero h0) one_lt_two)
  · have ha := hmem (l.length / 2 - 1) (by omega)
    have hb := hmem (l.length / 2) (Nat.div_lt_self (Nat.pos_of_ne_zero h0) one_lt_two)
    linarith

lemma medianQ_const {l : List ℚ} {c : ℚ} (h : ∀ x ∈ l, x = c) (hne : l ≠ []) :
    medianQ l = c := by
  have hlen : (l.insertionSort (· ≤ ·)).length = l.length :=
    (List.perm_insertionSort _ l).length_eq
  have hmem : ∀ i, i < l.length → (l.insertionSort (· ≤ ·)).getD i 0 = c := by
    intro i hi
    exact h _ ((List.perm_insertionSort _ l).mem_iff.mp
      (getD_mem_of_lt (by omega)))
  have h0 : l.length ≠ 0 := by
    simpa [List.length_eq_zero] using hne
  unfold medianQ
  split_ifs with h0' h1
  · exact absurd h0' h0
  · exact hmem _ (Nat.div_lt_self (Nat.pos_of_ne_zero h0) one_lt_two)
  · rw [hmem (l.length / 2 - 1) (by omega),
      hmem (l.length / 2) (Nat.div_lt_self (Nat.pos_of_ne_zero h0) one_lt_two)]
    ring

lemma mad_robust_nonneg (xs : List (Option ℚ)) : 0 ≤ mad_robust xs := by
  unfold mad_robust
  split_ifs with h
  · exact le_refl 0
  · refine mul_nonneg (by norm_num) (medianQ_nonneg ?_)
    intro x hx
    rcases List.mem_map.mp hx with ⟨a, _, rfl⟩
    exact abs_nonneg _

lemma mad_robust_eq_zero_of_const (xs : List (Option ℚ))
    (h : ∀ a ∈ xs.filterMap id, ∀ b ∈ xs.filterMap id, a = b) :
    mad_robust xs = 0 := by
  unfold mad_robust
  split_ifs with h0
  · rfl
  · have hne : xs.filterMap id ≠ [] := h0
    rcases List.exists_mem_of_ne_nil _ hne with ⟨c, hc⟩
    have hconst : ∀ x ∈ xs.filterMap id, x = c := fun x hx => h x hx c hc
    have hmed : medianQ (xs.filterMap id) = c := medianQ_const hconst hne
    have hdev : ∀ x ∈ (xs.filterMap id).map fun a => |a - medianQ (xs.filterMap id)|, x = 0 := by
      intro x hx
      rcases List.mem_map.mp hx with ⟨a, ha, rfl⟩
      rw [hmed, hconst a ha]
      simp
    rw [medianQ_const hdev (by simpa using hne)]
    ring

lemma orderedInsert_map_mono (f : ℚ → ℚ) (hf : ∀ a b, f a ≤ f b ↔ a ≤ b)
    (a : ℚ) (l : List ℚ) :
    (l.map f).orderedInsert (· ≤ ·) (f a) = (l.orderedInsert (· ≤ ·) a).map f := by
  induction l with
  | nil => rfl
  | cons b t ih =>
    simp only [List.map_cons, List.orderedInsert]
    by_cases hab : a ≤ b
    · rw [if_pos ((hf a b).mpr hab), if_pos hab, List.map_cons, List.map_cons]
    · rw [if_neg (fun hc => hab ((hf a b).mp hc)), if_neg hab, List.map_cons, ih]

lemma insertionSort_map_mono (f : ℚ → ℚ) (hf : ∀ a b, f a ≤ f b ↔ a ≤ b)
    (l : List ℚ) :
    (l.map f).insertionSort (· ≤ ·) = (l.insertionSort (· ≤ ·)).map f := by
  induction l with
  | nil => rfl
  | cons a t ih =>
    simp only [List.map_cons, List.insertionSort]
    rw [ih, orderedInsert_map_mono f hf]

lemma getD_map_of_lt (f : ℚ → ℚ) (l : List ℚ) (i : Nat) (h : i < l.length) :
    (l.map f).getD i 0 = f (l.getD i 0) := by
  rw [List.getD_eq_getElem?_getD, List.getD_eq_getElem?_getD, List.getElem?_map,
    List.getElem?_eq_getElem h]
  rfl

lemma medianQ_affine (m d : ℚ) (hd : 0 < d) (l : List ℚ) (hne : l ≠ []) :
    medianQ (l.map fun x => (x - m) / d) = (medianQ l - m) / d := by
  have hf : ∀ a b : ℚ, (a - m) / d ≤ (b - m) / d ↔ a ≤ b := by
    intro a b
    rw [div_le_div_iff_of_pos_right hd, sub_le_sub_iff_right]
  have h0 : l.length ≠ 0 := by simpa [List.length_eq_zero] using hne
  have hlen : (l.insertionSort (· ≤ ·)).length = l.length :=
    (List.perm_insertionSort _ l).length_eq
  unfold medianQ
  rw [insertionSort_map_mono _ hf, List.length_map]
  split_ifs with h0' h1
  · exact absurd h0' h0
  · rw [getD_map_of_lt _ _ _ (by omega)]
  · rw [getD_map_of_lt _ _ _ (by omega), getD_map_of_lt _ _ _ (by omega)]
    field_simp
    ring

lemma filterMap_id_map_optmap (f : ℚ → ℚ) (xs : List (Option ℚ)) :
    (xs.map (Option.map f)).filterMap id = (xs.filterMap id).map f := by
  rw [List.filterMap_map, List.map_filterMap]
  rfl

lemma filterMap_id_map_some (xs : List ℚ) : (xs.map some).filterMap id = xs := by
  rw [List.filterMap_map]
  simp

lemma mad_robust_congr {xs ys : List (Option ℚ)}
    (h : xs.filterMap id = ys.filterMap id) : mad_robust xs = mad_robust ys := by
  unfold mad_robust
  rw [h]

lemma nanmedian_congr {xs ys : List (Option ℚ)}
    (h : xs.filterMap id = ys.filterMap id) : nanmedian xs = nanmedian ys := by
  unfold nanmedian
  rw [h]

/-! ## Claims C2, C3, C7 — behaviour of `robust_z_scores` -/

/-- Claim C2 — Whenever the MAD-based scale `1.4826 * MAD` of the non-null
entries is zero or undefined — in particular when all non-null values are
identical or there is no non-null value — `robust_z_scores` returns a
sequence of zeros (`some 0`: finite values, never NaN or ±infinity) of the
same length as its input. -/
theorem claim_C2_degenerate_scale_zeros (xs : List (Option ℚ))
    (h : mad_robust xs = 0 ∨ ∀ a ∈ xs.filterMap id, ∀ b ∈ xs.filterMap id, a = b) :
    robust_z_scores xs = xs.map (fun _ => some 0) ∧
    (robust_z_scores xs).length = xs.length := by
  have hz : mad_robust xs = 0 := h.elim id (mad_robust_eq_zero_of_const xs)
  exact ⟨robust_z_scores_degenerate xs hz, length_robust_z_scores xs⟩

/-- Claim C2, witness — `robust_z_scores [1, 2, 2, 2, 100] = [0, 0, 0, 0, 0]`:
the degenerate-scale guard fires despite the extreme outlier. -/
theorem claim_C2_degenerate_scale_zeros_witness :
    robust_z_scores [some 1, some 2, some 2, some 2, some 100] =
      [some 0, some 0, some 0, some 0, some 0] := by
  have h := (claim_C2_degenerate_scale_zeros
    [some 1, some 2, some 2, some 2, some 100] (Or.inl (by decide))).1
  simpa using h

/-- Claim C3, counterexample — The claim says a null input always produces a
null output at the same index. It is false when the MAD-based scale is
degenerate: for `[2, null, 2]` the code returns `np.zeros_like(arr)`,
which is `0` — not null — at index 1. -/
theorem claim_C3_counterexample :
    robust_z_scores [some 2, none, some 2] = [some 0, some 0, some 0] ∧
    (robust_z_scores [some 2, none, some 2]).getD 1 none ≠ none := by
  constructor
  · decide
  · decide

/-- Claim C3, amended — When the MAD-based scale is nonzero, null inputs
produce null outputs at exactly the null indices, every non-null score is
`(v - m) / scale` with `m` and the MAD computed over the non-null entries
only, and consequently inserting or removing null entries never changes
the score of any non-null entry. (When the scale is degenerate the guard
of C2 overwrites null positions with `0`.) -/
theorem claim_C3_null_propagation (xs ys : List (Option ℚ))
    (hmad : mad_robust xs ≠ 0)
    (hsame : xs.filterMap id = ys.filterMap id) :
    (∀ i, (robust_z_scores xs).getD i none = none ↔ xs.getD i none = none) ∧
    (robust_z_scores xs).filterMap id =
      ((xs.filterMap id).map fun v => (v - nanmedian xs) / mad_robust xs) ∧
    (robust_z_scores xs).filterMap id = (robust_z_scores ys).filterMap id := by
  have hmad' : mad_robust ys ≠ 0 := by
    rw [← mad_robust_congr hsame]
    exact hmad
  rw [robust_z_scores_of_scale_ne xs hmad, robust_z_scores_of_scale_ne ys hmad']
  refine ⟨?_, ?_, ?_⟩
  · intro i
    simp only [List.getD_eq_getElem?_getD, List.getElem?_map]
    cases hx : xs[i]? with
    | none => simp
    | some a => cases a <;> simp
  · exact filterMap_id_map_optmap _ xs
  · rw [filterMap_id_map_optmap, filterMap_id_map_optmap, hsame,
      mad_robust_congr hsame, nanmedian_congr hsame]

/-- Claim C3, amended, witness — With a nonzero scale the null at index 1 of
`[0, null, 10]` stays null, and the non-null scores agree with those of
`[0, 10]` (the same non-null entries, null removed). -/
theorem claim_C3_null_propagation_witness :
    (robust_z_scores [some 0, none, some 10]).getD 1 none = none ∧
    (robust_z_scores [some 0, none, some 10]).filterMap id =
      (robust_z_scores [some 0, some 10]).filterMap id := by
  have h := claim_C3_null_propagation [some 0, none, some 10] [some 0, some 10]
    (by decide) (by decide)
  exact ⟨(h.1 1).mpr (by decide), h.2.2⟩

/-- Claim C7 — For every non-empty sequence of (non-null) values with a
nonzero MAD-based scale, the median of the robust z-scores is `0`, and the
scores preserve the order of the values: `values[i] ≤ values[j]` implies
`z[i] ≤ z[j]`. -/
theorem claim_C7_median_zero_order_preserving (xs : List ℚ) (hne : xs ≠ [])
    (hmad : mad_robust (xs.map some) ≠ 0) :
    medianQ ((robust_z_scores (xs.map some)).filterMap id) = 0 ∧
    ∀ i j, i < xs.length → j < xs.length → xs.getD i 0 ≤ xs.getD j 0 →
      ((robust_z_scores (xs.map some)).filterMap id).getD i 0 ≤
        ((robust_z_scores (xs.map some)).filterMap id).getD j 0 := by
  have hd : 0 < mad_robust (xs.map some) :=
    lt_of_le_of_ne (mad_robust_nonneg _) (Ne.symm hmad)
  have hxs : (xs.map some).filterMap id = xs := filterMap_id_map_some xs
  have hmed : nanmedian (xs.map some) = medianQ xs := by
    unfold nanmedian
    rw [hxs]
  rw [robust_z_scores_of_scale_ne _ hmad, filterMap_id_map_optmap, hxs, hmed]
  constructor
  · rw [medianQ_affine _ _ hd _ hne]
    simp
  · intro i j hi hj hle
    rw [getD_map_of_lt _ _ _ hi, getD_map_of_lt _ _ _ hj,
      div_le_div_iff_of_pos_right hd, sub_le_sub_iff_right]
    exact hle

/-- Claim C7, witness — For `values = [-50, -10, 0, 10, 50]` (scale
`14.826`), the median of the scores is `0` and the score of `-50` is at
most the score of `50`. -/
theorem claim_C7_median_zero_order_preserving_witness :
    medianQ ((robust_z_scores (([-50, -10, 0, 10, 50] : List ℚ).map some)).filterMap id) = 0 ∧
    ((robust_z_scores (([-50, -10, 0, 10, 50] : List ℚ).map some)).filterMap id).getD 0 0 ≤
      ((robust_z_scores (([-50, -10, 0, 10, 50] : List ℚ).map some)).filterMap id).getD 4 0 := by
  have h := claim_C7_median_zero_order_preserving [-50, -10, 0, 10, 50]
    (by decide) (by decide)
  exact ⟨h.1, h.2 0 4 (by decide) (by decide) (by decide)⟩

/-! ## Claims C1 and C10 — granularity dispatch and the empty table -/

/-- Claim C1, counterexample — The claim says a granularity outside
{Day, Month, Year} makes the call fail with a client-error indication.
It does not: `aggregate_data` has no raise at all — any unrecognized
granularity falls into the `else` branch (the same passthrough that
serves as "Day") and a normal result table is returned. Here
`"Quarter"` yields a fully populated one-row table. -/
theorem claim_C1_counterexample :
    aggregate_data [⟨⟨2024,3,5⟩, "B1", some 10, some 2, some 4⟩]
      [⟨"B1", some 50, some "Huset", some 1, some 2⟩] "Quarter" =
    [{ date := ⟨2024,3,5⟩, building_id := "B1", kwh := some 10, hdd_17c := some 2,
       total_HE := some 4, area_m2 := some 50, name := some "Huset", lat := some 1,
       lon := some 2, expected_kwh := some 62, residual := some (-52),
       kwh_per_m2 := some (1/5), kwh_per_student := some (5/2),
       z_score := some 0 }] := by
  decide

/-- Claim C1, amended — `aggregate_data` never raises: malformed cells are
nulls that propagate, and every granularity other than `"Month"` and
`"Year"` — `"Day"` and any unrecognized string alike — takes the `else`
branch, so the call behaves exactly like `"Day"` (readings pass through
unbucketed) and returns a result table instead of failing. -/
theorem claim_C1_no_granularity_error (edf : List Reading) (bdf : List Building)
    (g : String) (hm : g ≠ "Month") (hy : g ≠ "Year") :
    aggregate_data edf bdf g = aggregate_data edf bdf "Day" := by
  unfold aggregate_data bucketed
  rw [if_neg hm, if_neg hy, if_neg (by decide : ¬("Day" : String) = "Month"),
    if_neg (by decide : ¬("Day" : String) = "Year")]

/-- Claim C1, amended, witness — At the unrecognized granularity
`"Quarter"` the call returns the same table as at `"Day"`. -/
theorem claim_C1_no_granularity_error_witness :
    aggregate_data [⟨⟨2024,3,5⟩, "B1", some 10, some 2, some 4⟩]
      [⟨"B1", some 50, some "Huset", some 1, some 2⟩] "Quarter" =
    aggregate_data [⟨⟨2024,3,5⟩, "B1", some 10, some 2, some 4⟩]
      [⟨"B1", some 50, some "Huset", some 1, some 2⟩] "Day" :=
  claim_C1_no_granularity_error _ _ "Quarter" (by decide) (by decide)

/-- Claim C10 — An empty readings table (with the expected columns) at
granularity `"Month"` or `"Year"` aggregates to an empty table of the
full output row type (`expected_kwh`, `residual`, `kwh_per_m2`,
`kwh_per_student`, `z_score` included) — every stage, the z-score
column included, is defined on the empty table and no step fails. -/
theorem claim_C10_empty_readings (bdf : List Building) :
    aggregate_data [] bdf "Month" = ([] : List OutRow) ∧
    aggregate_data [] bdf "Year" = ([] : List OutRow) := by
  exact ⟨rfl, rfl⟩

/-! ## Structural lemmas about the pipeline -/

lemma zipWith_setZ_map {β : Type} (φ : OutRow → β)
    (hφ : ∀ w z, φ { w with z_score := z } = φ w) :
    ∀ (rows : List OutRow) (zs : List (Option ℚ)), rows.length ≤ zs.length →
      (List.zipWith (fun r z => { r with z_score := z }) rows zs).map φ =
        rows.map φ := by
  intro rows
  induction rows with
  | nil => intro zs _; simp
  | cons r rs ih =>
    intro zs h
    cases zs with
    | nil => simp at h
    | cons z zs' =>
      rw [List.zipWith_cons_cons, List.map_cons, List.map_cons, hφ,
        ih zs' (by simpa using h)]

lemma length_withZ_input (rows : List OutRow) :
    rows.length ≤ (robust_z_scores (rows.map (·.residual))).length := by
  rw [length_robust_z_scores, List.length_map]

lemma map_withZ {β : Type} (φ : OutRow → β)
    (hφ : ∀ w z, φ { w with z_score := z } = φ w) (rows : List OutRow) :
    (withZ rows).map φ = rows.map φ :=
  zipWith_setZ_map φ hφ rows _ (length_withZ_input rows)

lemma mem_zipWith_setZ :
    ∀ (rows : List OutRow) (zs : List (Option ℚ)) (w : OutRow),
      w ∈ List.zipWith (fun r z => { r with z_score := z }) rows zs →
      ∃ r ∈ rows, ∃ z, w = { r with z_score := z } := by
  intro rows
  induction rows with
  | nil => intro zs w h; simp at h
  | cons r rs ih =>
    intro zs w h
    cases zs with
    | nil => simp at h
    | cons z zs' =>
      rw [List.zipWith_cons_cons, List.mem_cons] at h
      rcases h with rfl | h
      · exact ⟨r, List.mem_cons_self r rs, z, rfl⟩
      · rcases ih zs' w h with ⟨r', hr', z', rfl⟩
        exact ⟨r', List.mem_cons_of_mem _ hr', z', rfl⟩

lemma mem_expandRow {bdf : List Building} {r : Reading} {w : OutRow}
    (h : w ∈ expandRow bdf r) :
    ∃ a nm la lo, w = mkRow r a nm la lo := by
  unfold expandRow at h
  rcases hfil : bdf.filter (fun b => b.building_id = r.building_id) with _ | ⟨b, bs⟩ <;>
    rw [hfil] at h
  · simp only [List.mem_singleton] at h
    exact ⟨none, none, none, none, h⟩
  · rcases List.mem_map.mp h with ⟨b', _, rfl⟩
    exact ⟨b'.area_m2, b'.name, b'.lat, b'.lon, rfl⟩

lemma mem_aggregate_shape {edf : List Reading} {bdf : List Building} {g : String}
    {w : OutRow} (hw : w ∈ aggregate_data edf bdf g) :
    ∃ r ∈ bucketed g edf, ∃ a nm la lo z, w = { mkRow r a nm la lo with z_score := z } := by
  unfold aggregate_data withZ at hw
  rcases mem_zipWith_setZ _ _ _ hw with ⟨w', hw', z, rfl⟩
  unfold mergeLeft at hw'
  rcases List.mem_flatMap.mp hw' with ⟨r, hr, hwr⟩
  rcases mem_expandRow hwr with ⟨a, nm, la, lo, rfl⟩
  exact ⟨r, hr, a, nm, la, lo, z, rfl⟩

lemma length_filter_building_le_one (bdf : List Building)
    (hnd : (bdf.map (·.building_id)).Nodup) (s : String) :
    (bdf.filter fun b => b.building_id = s).length ≤ 1 := by
  induction bdf with
  | nil => simp
  | cons b bs ih =>
    rw [List.map_cons, List.nodup_cons] at hnd
    rw [List.filter_cons]
    by_cases hb : b.building_id = s
    · have hnil : bs.filter (fun b => b.building_id = s) = [] := by
        rw [List.filter_eq_nil_iff]
        intro x hx
        simp only [decide_eq_true_eq]
        intro hxs
        exact hnd.1 (List.mem_map.mpr ⟨x, hx, by rw [hxs, hb]⟩)
      simp [hb, hnil]
    · rw [if_neg (by simp [hb])]
      exact ih hnd.2

lemma expandRow_map_rowKey {bdf : List Building}
    (hnd : (bdf.map (·.building_id)).Nodup) (r : Reading) :
    (expandRow bdf r).map rowKey = [readKey r] := by
  have hlen := length_filter_building_le_one bdf hnd r.building_id
  unfold expandRow
  rcases hfil : bdf.filter (fun b => b.building_id = r.building_id) with _ | ⟨b, bs⟩
  · rw [hfil]
    rfl
  · rw [hfil] at hlen ⊢
    have hbs : bs = [] := by
      simpa using hlen
    subst hbs
    rfl

lemma mergeLeft_map_rowKey {bdf : List Building}
    (hnd : (bdf.map (·.building_id)).Nodup) (rows : List Reading) :
    (mergeLeft bdf rows).map rowKey = rows.map readKey := by
  unfold mergeLeft
  induction rows with
  | nil => rfl
  | cons r rs ih =>
    rw [List.flatMap_cons, List.map_append, expandRow_map_rowKey hnd,
      List.map_cons, ih]
    rfl

lemma aggregate_map_rowKey (edf : List Reading) (bdf : List Building) (g : String)
    (hnd : (bdf.map (·.building_id)).Nodup) :
    (aggregate_data edf bdf g).map rowKey = (bucketed g edf).map readKey := by
  unfold aggregate_data
  rw [map_withZ rowKey (fun w z => rfl), mergeLeft_map_rowKey hnd]

lemma groupAgg_map_readKey (f : CalDate → CalDate) (edf : List Reading) :
    (groupAgg f edf).map readKey = groupKeys f edf := by
  unfold groupAgg
  rw [List.map_map]
  have h : readKey ∘ groupRow f edf = id := rfl
  rw [h, List.map_id]

lemma groupKeys_nodup (f : CalDate → CalDate) (edf : List Reading) :
    (groupKeys f edf).Nodup :=
  ((List.perm_insertionSort keyLE _).nodup_iff).mpr
    (List.nodup_dedup (edf.map (keyOf f)))

lemma mem_groupKeys {f : CalDate → CalDate} {edf : List Reading} {k : CalDate × String} :
    k ∈ groupKeys f edf ↔ k ∈ edf.map (keyOf f) := by
  unfold groupKeys
  rw [(List.perm_insertionSort keyLE _).mem_iff, List.mem_dedup]

lemma countKey_eq_ite (l : List (CalDate × String)) (hnd : l.Nodup)
    (k : CalDate × String) : countKey l k = if k ∈ l then 1 else 0 := by
  induction l with
  | nil => simp [countKey]
  | cons a t ih =>
    rw [List.nodup_cons] at hnd
    unfold countKey at ih ⊢
    rw [List.filter_cons]
    by_cases ha : a = k
    · subst ha
      have hnil : t.filter (fun x => x = a) = [] := by
        rw [List.filter_eq_nil_iff]
        intro x hx
        simp only [decide_eq_true_eq]
        intro hxa
        exact hnd.1 (hxa ▸ hx)
      simp [hnil]
    · rw [if_neg (by simp [ha]), ih hnd.2]
      rcases Decidable.em (k ∈ t) with hmem | hmem
      · rw [if_pos hmem, if_pos (List.mem_cons_of_mem a hmem)]
      · rw [if_neg hmem, if_neg (fun hc => ?_)]
        rcases List.mem_cons.mp hc with rfl | h
        · exact ha rfl
        · exact hmem h

lemma bucketOf_month : bucketOf "Month" = monthFloor := by
  funext d
  simp [bucketOf]

lemma bucketOf_year : bucketOf "Year" = yearFloor := by
  funext d
  unfold bucketOf
  rw [if_neg (by decide : ¬("Year" : String) = "Month"), if_pos rfl]

lemma bucketed_eq_groupAgg {g : String} (hg : g = "Month" ∨ g = "Year")
    (edf : List Reading) : bucketed g edf = groupAgg (bucketOf g) edf := by
  rcases hg with rfl | rfl
  · rw [bucketOf_month]
    unfold bucketed
    rw [if_pos rfl]
  · rw [bucketOf_year]
    unfold bucketed
    rw [if_neg (by decide : ¬("Year" : String) = "Month"), if_pos rfl]

lemma safeDiv_some_ne (k : Option ℚ) {a : ℚ} (ha : a ≠ 0) :
    safeDiv k (some a) = k.map fun x => x / a := by
  cases k <;> simp [safeDiv, ha]

lemma safeDiv_degenerate (k : Option ℚ) {den : Option ℚ}
    (h : den = some 0 ∨ den = none) : safeDiv k den = none := by
  rcases h with rfl | rfl <;> cases k <;> simp [safeDiv]

/-! ## Claims C4, C8, C9 — shape and contents of the aggregated table -/

/-- Claim C4, counterexample — The claim asserts exactly one output row per
`(building_id, bucket)` pair for every granularity in {Day, Month, Year}.
For `"Day"` the `else` branch passes the readings through without any
grouping, so two readings of the same building on the same date yield two
output rows with the same `(date, building_id)` pair. -/
theorem claim_C4_counterexample :
    countKey ((aggregate_data
        [⟨⟨2024,1,1⟩, "B1", some 1, some 0, some 10⟩,
         ⟨⟨2024,1,1⟩, "B1", some 2, some 0, some 10⟩]
        [⟨"B1", some 100, some "Hus", some 0, some 0⟩] "Day").map rowKey)
      (⟨2024,1,1⟩, "B1") = 2 := by
  decide

/-- Claim C4, amended — When `bdf` has pairwise distinct building ids:
for granularity `"Month"` or `"Year"` the output has exactly one row per
`(bucket, building_id)` pair present in the input and no other rows
(bucket = first of month, resp. January 1); for every other granularity
(`"Day"` included) the readings pass through, one output row per input
reading, so duplicate pairs survive. -/
theorem claim_C4_unique_rows (edf : List Reading) (bdf : List Building)
    (g : String) (hnd : (bdf.map (·.building_id)).Nodup) :
    ((g = "Month" ∨ g = "Year") → ∀ dt bid,
      countKey ((aggregate_data edf bdf g).map rowKey) (dt, bid) =
        if (dt, bid) ∈ edf.map (keyOf (bucketOf g)) then 1 else 0) ∧
    (g ≠ "Month" → g ≠ "Year" →
      (aggregate_data edf bdf g).map rowKey = edf.map readKey) := by
  constructor
  · intro hg dt bid
    rw [aggregate_map_rowKey _ _ _ hnd, bucketed_eq_groupAgg hg,
      groupAgg_map_readKey, countKey_eq_ite _ (groupKeys_nodup _ _)]
    simp only [mem_groupKeys]
  · intro hm hy
    have hb : bucketed g edf = edf := by
      unfold bucketed
      rw [if_neg hm, if_neg hy]
    rw [aggregate_map_rowKey _ _ _ hnd, hb]

/-- Claim C4, amended, witness — Two January readings of building `B1`
aggregate at `"Month"` into exactly one row keyed
`(2024-01-01, "B1")`. -/
theorem claim_C4_unique_rows_witness :
    countKey ((aggregate_data
        [⟨⟨2024,1,15⟩, "B1", some 1, some 0, some 5⟩,
         ⟨⟨2024,1,20⟩, "B1", some 2, some 0, some 5⟩]
        [⟨"B1", some 100, some "Hus", some 0, some 0⟩] "Month").map rowKey)
      (⟨2024,1,1⟩, "B1") = 1 := by
  have h := (claim_C4_unique_rows
    [⟨⟨2024,1,15⟩, "B1", some 1, some 0, some 5⟩,
     ⟨⟨2024,1,20⟩, "B1", some 2, some 0, some 5⟩]
    [⟨"B1", some 100, some "Hus", some 0, some 0⟩] "Month"
    (by decide)).1 (Or.inl rfl) ⟨2024,1,1⟩ "B1"
  rw [h]
  decide

/-- Claim C9 — In every output row produced at granularity `"Month"` or
`"Year"`, `kwh` and `hdd_17c` are the sums over the row's
`(bucket, building_id)` group of readings (nulls skipped), and
`total_HE` (the capacity/occupancy column) is the first non-null value
of the group — never a sum. -/
theorem claim_C9_group_sums (edf : List Reading) (bdf : List Building)
    (g : String) (hg : g = "Month" ∨ g = "Year") (w : OutRow)
    (hw : w ∈ aggregate_data edf bdf g) :
    w.kwh = some (sumO ((edf.filter fun r =>
        keyOf (bucketOf g) r = (w.date, w.building_id)).map (·.kwh))) ∧
    w.hdd_17c = some (sumO ((edf.filter fun r =>
        keyOf (bucketOf g) r = (w.date, w.building_id)).map (·.hdd_17c))) ∧
    w.total_HE = firstO ((edf.filter fun r =>
        keyOf (bucketOf g) r = (w.date, w.building_id)).map (·.total_HE)) := by
  rcases mem_aggregate_shape hw with ⟨r, hr, a, nm, la, lo, z, rfl⟩
  rw [bucketed_eq_groupAgg hg] at hr
  unfold groupAgg at hr
  rcases List.mem_map.mp hr with ⟨k, hk, rfl⟩
  exact ⟨rfl, rfl, rfl⟩

/-- Claim C9, witness — Two January readings of `B1` with `kwh` 10 and 20,
`hdd_17c` 1 and 2, and `total_HE` null and 7 aggregate to `kwh = 30`,
`hdd_17c = 3`, and `total_HE = 7` (first non-null, not a sum). -/
theorem claim_C9_group_sums_witness :
    ((aggregate_data
        [⟨⟨2024,1,10⟩, "B1", some 10, some 1, none⟩,
         ⟨⟨2024,1,20⟩, "B1", some 20, some 2, some 7⟩] [] "Month").getD 0
        default).kwh = some 30 ∧
    ((aggregate_data
        [⟨⟨2024,1,10⟩, "B1", some 10, some 1, none⟩,
         ⟨⟨2024,1,20⟩, "B1", some 20, some 2, some 7⟩] [] "Month").getD 0
        default).total_HE = some 7 := by
  have h := claim_C9_group_sums
    [⟨⟨2024,1,10⟩, "B1", some 10, some 1, none⟩,
     ⟨⟨2024,1,20⟩, "B1", some 20, some 2, some 7⟩] [] "Month" (Or.inl rfl)
    _ (by decide :
      ((aggregate_data
        [⟨⟨2024,1,10⟩, "B1", some 10, some 1, none⟩,
         ⟨⟨2024,1,20⟩, "B1", some 20, some 2, some 7⟩] [] "Month").getD 0
        default) ∈ aggregate_data
        [⟨⟨2024,1,10⟩, "B1", some 10, some 1, none⟩,
         ⟨⟨2024,1,20⟩, "B1", some 20, some 2, some 7⟩] [] "Month")
  exact ⟨h.1.trans (by decide), h.2.2.trans (by decide)⟩

/-- Claim C8 — In every output row, `kwh_per_m2` is `kwh / area_m2` whenever
`area_m2 > 0` and null — never infinite, never an error — whenever
`area_m2` is zero or null; likewise `kwh_per_student` with denominator
`total_HE` (the capacity/occupancy column). -/
theorem claim_C8_ratio_guards (edf : List Reading) (bdf : List Building)
    (g : String) (w : OutRow) (hw : w ∈ aggregate_data edf bdf g) :
    (∀ a, w.area_m2 = some a → 0 < a →
      w.kwh_per_m2 = w.kwh.map fun x => x / a) ∧
    ((w.area_m2 = some 0 ∨ w.area_m2 = none) → w.kwh_per_m2 = none) ∧
    (∀ c, w.total_HE = some c → 0 < c →
      w.kwh_per_student = w.kwh.map fun x => x / c) ∧
    ((w.total_HE = some 0 ∨ w.total_HE = none) → w.kwh_per_student = none) := by
  rcases mem_aggregate_shape hw with ⟨r, hr, a, nm, la, lo, z, rfl⟩
  have h1 : ({ mkRow r a nm la lo with z_score := z } : OutRow).kwh_per_m2 =
      safeDiv r.kwh a := rfl
  have h2 : ({ mkRow r a nm la lo with z_score := z } : OutRow).kwh_per_student =
      safeDiv r.kwh r.total_HE := rfl
  refine ⟨?_, ?_, ?_, ?_⟩
  · intro a' ha' hpos
    have ha : a = some a' := ha'
    rw [h1, ha, safeDiv_some_ne _ (ne_of_gt hpos)]
    rfl
  · intro h0
    have h0' : a = some 0 ∨ a = none := h0
    rw [h1, safeDiv_degenerate _ h0']
  · intro c hc hpos
    have ht : r.total_HE = some c := hc
    rw [h2, ht, safeDiv_some_ne _ (ne_of_gt hpos)]
    rfl
  · intro h0
    have h0' : r.total_HE = some 0 ∨ r.total_HE = none := h0
    rw [h2, safeDiv_degenerate _ h0']

/-- Claim C8, witness — A building with `area_m2 = 0` and `total_HE = 4`
gets `kwh_per_m2 = null` (not infinite) and `kwh_per_student = 10/4`. -/
theorem claim_C8_ratio_guards_witness :
    ((aggregate_data [⟨⟨2024,1,10⟩, "B1", some 10, some 0, some 4⟩]
        [⟨"B1", some 0, some "Hus", some 0, some 0⟩] "Month").getD 0
        default).kwh_per_m2 = none ∧
    ((aggregate_data [⟨⟨2024,1,10⟩, "B1", some 10, some 0, some 4⟩]
        [⟨"B1", some 0, some "Hus", some 0, some 0⟩] "Month").getD 0
        default).kwh_per_student = some (5/2) := by
  have h := claim_C8_ratio_guards
    [⟨⟨2024,1,10⟩, "B1", some 10, some 0, some 4⟩]
    [⟨"B1", some 0, some "Hus", some 0, some 0⟩] "Month"
    _ (by decide :
      ((aggregate_data [⟨⟨2024,1,10⟩, "B1", some 10, some 0, some 4⟩]
        [⟨"B1", some 0, some "Hus", some 0, some 0⟩] "Month").getD 0 default) ∈
      aggregate_data [⟨⟨2024,1,10⟩, "B1", some 10, some 0, some 4⟩]
        [⟨"B1", some 0, some "Hus", some 0, some 0⟩] "Month")
  refine ⟨h.2.1 (Or.inl (by decide)), ?_⟩
  have h4 := h.2.2.1 4 (by decide) (by decide)
  exact h4.trans (by decide)

/-! ## Claim C5 — sharding by building -/

lemma building_id_of_mem_expandRow {bdf : List Building} {r : Reading} {w : OutRow}
    (h : w ∈ expandRow bdf r) : w.building_id = r.building_id := by
  rcases mem_expandRow h with ⟨a, nm, la, lo, rfl⟩
  rfl

lemma groupKeys_filter (f : CalDate → CalDate) (edf : List Reading)
    (p : String → Bool) :
    groupKeys f (edf.filter fun r => p r.building_id) =
      (groupKeys f edf).filter fun k => p k.2 := by
  have hs1 : List.Sorted keyLE (groupKeys f (edf.filter fun r => p r.building_id)) :=
    List.sorted_insertionSort keyLE _
  have hs2 : List.Sorted keyLE ((groupKeys f edf).filter fun k => p k.2) :=
    List.Pairwise.filter _ (List.sorted_insertionSort keyLE _)
  have hnd1 := groupKeys_nodup f (edf.filter fun r => p r.building_id)
  have hnd2 := (groupKeys_nodup f edf).filter (fun k => p k.2)
  refine List.eq_of_perm_of_sorted ((List.perm_ext_iff_of_nodup hnd1 hnd2).mpr ?_) hs1 hs2
  intro k
  rw [mem_groupKeys, List.mem_filter, mem_groupKeys]
  simp only [List.mem_map, List.mem_filter]
  constructor
  · rintro ⟨r, ⟨hr, hp⟩, rfl⟩
    exact ⟨⟨r, hr, rfl⟩, hp⟩
  · rintro ⟨⟨r, hr, rfl⟩, hp⟩
    exact ⟨r, ⟨hr, hp⟩, rfl⟩

lemma groupRow_filter (f : CalDate → CalDate) (edf : List Reading)
    (p : String → Bool) (k : CalDate × String) (hk : p k.2 = true) :
    groupRow f (edf.filter fun r => p r.building_id) k = groupRow f edf k := by
  have hfil : (edf.filter fun r => p r.building_id).filter
      (fun r => keyOf f r = k) = edf.filter (fun r => keyOf f r = k) := by
    rw [List.filter_filter]
    refine List.filter_congr ?_
    intro r _
    by_cases hr : keyOf f r = k
    · have hb : r.building_id = k.2 := congrArg Prod.snd hr
      simp [hr, hb, hk]
    · simp [hr]
  unfold groupRow
  rw [hfil]

lemma groupAgg_filter (f : CalDate → CalDate) (edf : List Reading)
    (p : String → Bool) :
    groupAgg f (edf.filter fun r => p r.building_id) =
      (groupAgg f edf).filter fun r => p r.building_id := by
  unfold groupAgg
  rw [groupKeys_filter, List.filter_map]
  have hcomp : ((fun r : Reading => p r.building_id) ∘ groupRow f edf) =
      fun k : CalDate × String => p k.2 := rfl
  rw [hcomp]
  refine List.map_congr_left ?_
  intro k hk
  exact groupRow_filter f edf p k (List.mem_filter.mp hk).2

lemma mergeLeft_filter (bdf : List Building) (rows : List Reading)
    (p : String → Bool) :
    mergeLeft bdf (rows.filter fun r => p r.building_id) =
      (mergeLeft bdf rows).filter fun w => p w.building_id := by
  unfold mergeLeft
  induction rows with
  | nil => rfl
  | cons r rs ih =>
    rw [List.filter_cons, List.flatMap_cons, List.filter_append, ← ih]
    by_cases hp : p r.building_id = true
    · rw [if_pos (by simpa using hp), List.flatMap_cons]
      have hself : (expandRow bdf r).filter (fun w => p w.building_id) =
          expandRow bdf r := by
        rw [List.filter_eq_self]
        intro w hw
        rw [building_id_of_mem_expandRow hw]
        exact hp
      rw [hself]
    · rw [if_neg (by simpa using hp)]
      have hnil : (expandRow bdf r).filter (fun w => p w.building_id) = [] := by
        rw [List.filter_eq_nil_iff]
        intro w hw
        rw [building_id_of_mem_expandRow hw]
        simpa using hp
      rw [hnil, List.nil_append]

lemma bucketed_filter (g : String) (edf : List Reading) (p : String → Bool) :
    bucketed g (edf.filter fun r => p r.building_id) =
      (bucketed g edf).filter fun r => p r.building_id := by
  unfold bucketed
  split_ifs
  · exact groupAgg_filter monthFloor edf p
  · exact groupAgg_filter yearFloor edf p
  · rfl

lemma aggregate_filter (edf : List Reading) (bdf : List Building) (g : String)
    (p : String → Bool) :
    (aggregate_data (edf.filter fun r => p r.building_id) bdf g).map stripZ =
      ((aggregate_data edf bdf g).map stripZ).filter fun w => p w.building_id := by
  unfold aggregate_data
  rw [map_withZ stripZ (fun w z => rfl), map_withZ stripZ (fun w z => rfl),
    bucketed_filter, mergeLeft_filter, List.filter_map]
  refine congrArg _ ?_
  exact (List.filter_congr fun w _ => rfl).symm

/-- Claim C5, counterexample — The claim says per-building sharding preserves
all rows including `z_score`. It does not: `z_score` is computed from the
residuals of the WHOLE table (`data.py` line 266), not per building.
Aggregating buildings `B1` (residual 100) and `B2` (residual 0) together
gives scores `±5000/7413`, while aggregating each building alone hits the
single-value degenerate-scale guard and gives `0` — so concatenating the
per-building results differs from the whole-table result. -/
theorem claim_C5_counterexample :
    (aggregate_data
        [⟨⟨2024,1,15⟩, "B1", some 100, some 0, some 0⟩,
         ⟨⟨2024,1,20⟩, "B2", some 0, some 0, some 0⟩] [] "Month").map (·.z_score) =
      [some (5000/7413), some (-5000/7413)] ∧
    ((aggregate_data [⟨⟨2024,1,15⟩, "B1", some 100, some 0, some 0⟩] [] "Month") ++
     (aggregate_data [⟨⟨2024,1,20⟩, "B2", some 0, some 0, some 0⟩] [] "Month")).map
        (·.z_score) = [some 0, some 0] ∧
    aggregate_data
        [⟨⟨2024,1,15⟩, "B1", some 100, some 0, some 0⟩,
         ⟨⟨2024,1,20⟩, "B2", some 0, some 0, some 0⟩] [] "Month" ≠
      (aggregate_data [⟨⟨2024,1,15⟩, "B1", some 100, some 0, some 0⟩] [] "Month") ++
      (aggregate_data [⟨⟨2024,1,20⟩, "B2", some 0, some 0, some 0⟩] [] "Month") := by
  refine ⟨by decide, by decide, by decide⟩

/-- Claim C5, amended — Splitting the readings into the buildings selected
by a predicate and the rest, aggregating each part and concatenating
yields, for every granularity, the same rows as aggregating the whole
input up to permutation IN EVERY COLUMN EXCEPT `z_score` (`stripZ`
erases only `z_score`): bucketing, summation, the join and the derived
columns are per-row/per-group, but `z_score` is computed from the whole
table's residual column and generally changes under sharding. -/
theorem claim_C5_sharding_up_to_z (edf : List Reading) (bdf : List Building)
    (g : String) (p : String → Bool) :
    List.Perm
      (((aggregate_data (edf.filter fun r => p r.building_id) bdf g) ++
        (aggregate_data (edf.filter fun r => !p r.building_id) bdf g)).map stripZ)
      ((aggregate_data edf bdf g).map stripZ) := by
  rw [List.map_append, aggregate_filter edf bdf g p,
    aggregate_filter edf bdf g (fun s => !p s)]
  exact List.filter_append_perm _ _

/-! ## Claim C6 — top-N selection -/

/-- Claim C6, counterexample — `app.py` selects the top rows with
`gdf["z_score"].abs().nlargest(3).index`. Two failures of the claim:
(i) ties are kept in table-position order (`keep="first"`), not broken by
`building_id` then `date` — here the two rows tie on `|z| = 5000/7413`
and the selection returns building `"B"` (earlier bucket) before `"A"`,
though `"A" < "B"`; (ii) `nlargest` drops null (NaN) scores, so a scored
3-row table whose third row has a null `z_score` (here from a null
`total_HE`, which nulls `expected_kwh` and `residual`) yields only 2 rows
from a top-3 selection, not exactly 3. -/
theorem claim_C6_counterexample :
    (topN (aggregate_data
        [⟨⟨2024,1,1⟩, "B", some 0, some 0, some 0⟩,
         ⟨⟨2024,2,1⟩, "A", some 100, some 0, some 0⟩] [] "Month") 2).map
      (·.building_id) = ["B", "A"] ∧
    (topN (aggregate_data
        [⟨⟨2024,1,1⟩, "B", some 0, some 0, some 0⟩,
         ⟨⟨2024,2,1⟩, "A", some 100, some 0, some 0⟩] [] "Month") 2).map
      (fun w => w.z_score.map abs) = [some (5000/7413), some (5000/7413)] ∧
    (topN (aggregate_data
        [⟨⟨2024,1,5⟩, "A", some 0, some 0, some 0⟩,
         ⟨⟨2024,1,6⟩, "B", some 100, some 0, some 0⟩,
         ⟨⟨2024,1,7⟩, "C", some 50, some 0, none⟩] [] "Month") 3).length = 2 := by
  refine ⟨by decide, by decide, by decide⟩

/-- Claim C6, amended — For every scored table and `n`, the top-N selection
returns `min n k` rows where `k` is the number of rows with a non-null
`z_score` (so exactly `n` only when at least `n` scores are non-null);
rows with null `z_score` are never selected; the selection is sorted
descending by `|z_score|` with ties kept in original table order (not
`building_id`-then-`date`); and every selected row's `|z_score|` is at
least the `|z_score|` of every excluded candidate row. -/
theorem claim_C6_topn_selection (rows : List OutRow) (n : Nat) :
    (topN rows n).length = min n (zIdx rows).length ∧
    (∀ w ∈ topN rows n, w.z_score ≠ none) ∧
    (topN rows n).Pairwise
      (fun a b => |b.z_score.getD 0| ≤ |a.z_score.getD 0|) ∧
    (∀ i ∈ (zSorted rows).take n, ∀ j ∈ (zSorted rows).drop n,
      absZAt rows j ≤ absZAt rows i) := by
  have hperm : List.Perm (zSorted rows) (zIdx rows) :=
    List.perm_insertionSort _ _
  have hsort : List.Sorted (zRank rows) (zSorted rows) :=
    List.sorted_insertionSort (zRank rows) (zIdx rows)
  have hrank_le : ∀ i j, zRank rows i j → absZAt rows j ≤ absZAt rows i := by
    intro i j hij
    rcases hij with h | ⟨h, _⟩
    · exact le_of_lt h
    · exact le_of_eq h.symm
  refine ⟨?_, ?_, ?_, ?_⟩
  · unfold topN
    rw [List.length_map, List.length_take, hperm.length_eq]
  · intro w hw
    unfold topN at hw
    rcases List.mem_map.mp hw with ⟨i, hi, rfl⟩
    have hi2 : i ∈ zIdx rows := hperm.mem_iff.mp (List.take_subset n _ hi)
    unfold zIdx at hi2
    simp only [List.mem_filter, decide_eq_true_eq] at hi2
    exact hi2.2
  · unfold topN
    refine List.Pairwise.map _ ?_ (List.Pairwise.sublist (List.take_sublist n _) hsort)
    intro a b hab
    exact hrank_le a b hab
  · intro i hi j hj
    have hsplit := hsort
    rw [← List.take_append_drop n (zSorted rows)] at hsplit
    rcases List.pairwise_append.mp hsplit with ⟨_, _, hcross⟩
    exact hrank_le i j (hcross i hi j hj)
